import Mathlib

/-!
# Shallow embedding of the `debouncer` crate (`src/lib.rs`)

The crate offers two state machines:

* `PortDebouncer<N, BTNS>` debounces up to 32 pins packed into a `u32` port
  value: a ring of the last `N` raw samples, AND-reduced on every `N`-th
  `update` call, plus a saturating per-pin hold/repeat counter.
* `PinDebouncer` debounces a single boolean with a consecutive-press counter.

Machine integers (`u32`, `usize`) are modelled as `Nat`.  Where overflow or
underflow of the machine type can actually occur the embedding makes it
explicit (`u32Sub` below models the wrapping two's-complement subtraction of
`u32`); everywhere else the involved quantities stay far below `2 ^ 32` so
plain `Nat` arithmetic coincides with the machine arithmetic.  Bitwise
operations on the port value (`&`, `!`, `<<`) are `Nat.land`, XOR with the
32-bit mask `0xFFFFFFFF` (the `u32` complement of a value `< 2 ^ 32`), and
`Nat.shiftLeft`.  The `GenericArray` ring and counter arrays become `List Nat`
whose lengths play the role of the type-level constants `N` and `BTNS`.
-/

set_option maxRecDepth 100000

namespace Debouncer

/-- `enum Error` of the crate: querying a pin that was not configured. -/
inductive Error where
  | BtnUninitialized
deriving DecidableEq, Repr

/-- `enum BtnState` of the crate. -/
inductive BtnState where
  | Pressed
  | UnPressed
  | Repeat
  | Hold
  | ChangedToPressed
deriving DecidableEq, Repr

/-- State of `PortDebouncer<N, BTNS>`: `port_states` has length `N` and
`counter` has length `BTNS`. -/
structure PortDebouncer where
  port_states : List Nat
  current_index : Nat
  last_debounced_state : Nat
  debounced_state : Nat
  changed_to_pressed : Nat
  repeat_ticks : Nat
  hold_ticks : Nat
  counter : List Nat
deriving DecidableEq, Repr

/-- `PortDebouncer::new(repeat_ticks, hold_ticks)`.  `GenericArray::default()`
zero-fills both arrays.  The source computes `repeat_ticks / N` and
`hold_ticks / N - 1` in `usize`; for `hold_ticks / N = 0` the `usize`
subtraction would wrap (a documented caller-contract violation), while `Nat`
subtraction truncates at `0` — all theorems below instantiate constructions
with `N ≥ 1` and `hold_ticks ≥ N`, where the two agree. -/
def portNew (N BTNS repeatTicks holdTicks : Nat) : PortDebouncer where
  port_states := List.replicate N 0
  current_index := 0
  last_debounced_state := 0
  debounced_state := 0
  changed_to_pressed := 0
  repeat_ticks := repeatTicks / N
  hold_ticks := holdTicks / N - 1
  counter := List.replicate BTNS 0

/-- The loop `for &state in self.port_states.iter() { self.debounced_state &= state }`
starting from `0xFFFF_FFFF`. -/
def portDebounce (states : List Nat) : Nat :=
  states.foldl (fun a b => a &&& b) 0xFFFFFFFF

/-- The loop `for (index, btn_counter) in self.counter.iter_mut().enumerate()`
of `PortDebouncer::update`: position `k` is the bit index of the first list
element.  A counter is bumped (saturating at `hold + rep`) when the pin is set
in both the previous and the new debounced state, and cleared otherwise. -/
def updateCounters (last deb hold rep : Nat) : Nat → List Nat → List Nat
  | _, [] => []
  | k, c :: cs =>
      (if last &&& deb &&& (1 <<< k) ≠ 0 then
        if c < hold + rep then c + 1 else c
      else 0) :: updateCounters last deb hold rep (k + 1) cs

/-- `PortDebouncer::update`.  The source stores the raw sample into the ring
slot first and then branches on `current_index != N - 1`; here the (identical)
store is written in both branches.  `!self.last_debounced_state` is the `u32`
complement, i.e. XOR with `0xFFFF_FFFF`. -/
def portUpdate (s : PortDebouncer) (port_value : Nat) : Bool × PortDebouncer :=
  if s.current_index ≠ s.port_states.length - 1 then
    (false, { s with
      port_states := s.port_states.set s.current_index port_value
      current_index := s.current_index + 1 })
  else
    let states := s.port_states.set s.current_index port_value
    let deb := portDebounce states
    (true, { s with
      port_states := states
      current_index := 0
      debounced_state := deb
      changed_to_pressed := (s.last_debounced_state ^^^ 0xFFFFFFFF) &&& deb
      counter := updateCounters s.last_debounced_state deb s.hold_ticks s.repeat_ticks 0 s.counter
      last_debounced_state := deb })

/-- `PortDebouncer::get_state(pin)`, returning the `Result` together with the
state after the call (the `Repeat` branch mutates `self.counter[pin]`).
In the `Repeat` branch `counter[pin] ≥ hold + rep ≥ rep`, so the `u32`
subtraction `self.counter[pin] -= self.repeat_ticks` cannot wrap and equals
the `Nat` subtraction. -/
def portGetState (s : PortDebouncer) (pin : Nat) : Except Error BtnState × PortDebouncer :=
  if pin ≥ s.counter.length then
    (.error .BtnUninitialized, s)
  else if s.changed_to_pressed &&& (1 <<< pin) ≠ 0 then
    (.ok .ChangedToPressed, s)
  else if s.counter.getD pin 0 ≥ s.hold_ticks + s.repeat_ticks then
    (.ok .Repeat, { s with
      counter := s.counter.set pin (s.counter.getD pin 0 - s.repeat_ticks) })
  else if s.counter.getD pin 0 ≥ s.hold_ticks then
    (.ok .Hold, s)
  else if s.debounced_state &&& (1 <<< pin) ≠ 0 then
    (.ok .Pressed, s)
  else
    (.ok .UnPressed, s)

/-- State of `PinDebouncer`. -/
structure PinDebouncer where
  current_index : Nat
  last_debounced_state : BtnState
  debounced_state : BtnState
  press_ticks : Nat
  repeat_ticks : Nat
  hold_ticks : Nat
  counter : Nat
deriving DecidableEq, Repr

/-- `PinDebouncer::new(press_ticks, repeat_ticks, hold_ticks)`.  The stored
`press_ticks` and `hold_ticks` are the arguments minus one (`u32`
subtraction; for a zero argument the machine value would wrap, `Nat`
truncates — theorems instantiate with arguments `≥ 1`, where the two agree). -/
def pinNew (press repeatTicks holdTicks : Nat) : PinDebouncer where
  current_index := 0
  last_debounced_state := .UnPressed
  debounced_state := .UnPressed
  press_ticks := press - 1
  repeat_ticks := repeatTicks
  hold_ticks := holdTicks - 1
  counter := 0

/-- The counter step at the top of `PinDebouncer::update`: increment while the
raw sample is `true`, saturating at `hold_ticks + repeat_ticks`; reset to `0`
on a `false` sample. -/
def pinNextCounter (s : PinDebouncer) (pin_value : Bool) : Nat :=
  if pin_value then
    if s.counter < s.hold_ticks + s.repeat_ticks then s.counter + 1 else s.counter
  else 0

/-- The base debounced state recomputed on window completion
(`if self.counter >= self.press_ticks { Pressed } else { UnPressed }`),
before the `ChangedToPressed` / `Repeat` / `Hold` upgrades. -/
def pinBaseState (counter press : Nat) : BtnState :=
  if counter ≥ press then .Pressed else .UnPressed

/-- `PinDebouncer::update`.  The source updates the counter first and then
branches on `current_index != press_ticks`; here the (identical) counter step
is written in both branches. -/
def pinUpdate (s : PinDebouncer) (pin_value : Bool) : Bool × PinDebouncer :=
  if s.current_index ≠ s.press_ticks then
    (false, { s with
      counter := pinNextCounter s pin_value
      current_index := s.current_index + 1 })
  else
    let counter := pinNextCounter s pin_value
    let deb :=
      if s.last_debounced_state = .UnPressed ∧ pinBaseState counter s.press_ticks = .Pressed then
        .ChangedToPressed
      else if counter ≥ s.hold_ticks + s.repeat_ticks then
        .Repeat
      else if counter ≥ s.hold_ticks then
        .Hold
      else pinBaseState counter s.press_ticks
    (true, { s with
      counter := counter
      current_index := 0
      debounced_state := deb
      last_debounced_state := deb })

/-- Wrapping `u32` subtraction: for `a, b < 2 ^ 32` this is
`(a - b) mod 2 ^ 32` in two's complement, i.e. exactly what the machine
subtraction `a - b` produces when overflow checks are disabled. -/
def u32Sub (a b : Nat) : Nat :=
  if b ≤ a then a - b else a + (2 ^ 32 - b)

/-- `PinDebouncer::get_state`.  The `Repeat` arm performs
`self.counter -= self.repeat_ticks`, a `u32` subtraction that CAN underflow
(see `pinRepeatUnderflow`); it is modelled by the wrapping `u32Sub`. -/
def pinGetState (s : PinDebouncer) : BtnState × PinDebouncer :=
  match s.debounced_state with
  | .Repeat =>
      (.Repeat, { s with
        counter := u32Sub s.counter s.repeat_ticks
        debounced_state := .Hold })
  | other => (other, s)

/-- The condition under which the subtraction
`self.counter -= self.repeat_ticks` in `PinDebouncer::get_state` underflows
the `u32` counter: the stored state is a (possibly stale) `Repeat` while the
counter has already dropped below `repeat_ticks`.  With overflow checks this
is a panic; without, the counter wraps around. -/
@[reducible] def pinRepeatUnderflow (s : PinDebouncer) : Prop :=
  s.debounced_state = .Repeat ∧ s.counter < s.repeat_ticks

/-- Feed a list of raw port samples through `PortDebouncer::update`. -/
def portRunUpdates (s : PortDebouncer) (l : List Nat) : PortDebouncer :=
  l.foldl (fun t v => (portUpdate t v).2) s

/-- Feed a list of raw boolean samples through `PinDebouncer::update`. -/
def pinRunUpdates (s : PinDebouncer) (l : List Bool) : PinDebouncer :=
  l.foldl (fun t v => (pinUpdate t v).2) s

/-- States reachable from `init` by any interleaving of `update` and
`get_state` calls. -/
inductive PortReachable (init : PortDebouncer) : PortDebouncer → Prop where
  | refl : PortReachable init init
  | update (s : PortDebouncer) (v : Nat) :
      PortReachable init s → PortReachable init (portUpdate s v).2
  | getState (s : PortDebouncer) (pin : Nat) :
      PortReachable init s → PortReachable init (portGetState s pin).2

/-- States reachable from `init` by any interleaving of `update` and
`get_state` calls. -/
inductive PinReachable (init : PinDebouncer) : PinDebouncer → Prop where
  | refl : PinReachable init init
  | update (s : PinDebouncer) (v : Bool) :
      PinReachable init s → PinReachable init (pinUpdate s v).2
  | getState (s : PinDebouncer) :
      PinReachable init s → PinReachable init (pinGetState s).2

/-! ## Helper lemmas -/

instance : DecidableEq (Except Error BtnState) := fun a b =>
  match a, b with
  | .ok x, .ok y =>
      if h : x = y then .isTrue (by rw [h]) else .isFalse (fun hc => h (Except.ok.inj hc))
  | .error x, .error y =>
      if h : x = y then .isTrue (by rw [h]) else .isFalse (fun hc => h (Except.error.inj hc))
  | .ok _, .error _ => .isFalse (fun hc => Except.noConfusion hc)
  | .error _, .ok _ => .isFalse (fun hc => Except.noConfusion hc)

/-- A `u32`-style single-bit test `x & (1 << i) != 0` is `Nat.testBit`. -/
theorem land_one_shiftLeft_ne_zero (x i : Nat) :
    (x &&& (1 <<< i) ≠ 0) ↔ x.testBit i = true := by
  rw [Nat.one_shiftLeft, Nat.and_two_pow]
  rcases h : x.testBit i <;> simp [h]

theorem foldl_land_testBit (l : List Nat) (a i : Nat) :
    (l.foldl (fun x y => x &&& y) a).testBit i = (a.testBit i && l.all fun x => x.testBit i) := by
  induction l generalizing a with
  | nil => simp
  | cons x xs ih => simp [List.foldl_cons, ih, Nat.testBit_land, Bool.and_assoc]

/-- Bit `i` of the AND-reduction of the ring is set iff `i` is one of the 32
port bits and every retained sample has it set. -/
theorem portDebounce_testBit (l : List Nat) (i : Nat) :
    (portDebounce l).testBit i = (decide (i < 32) && l.all fun x => x.testBit i) := by
  have hmask : (0xFFFFFFFF : Nat) = 2 ^ 32 - 1 := by norm_num
  rw [portDebounce, foldl_land_testBit, hmask, Nat.testBit_two_pow_sub_one]

theorem updateCounters_length (last deb hold rep : Nat) :
    ∀ (k : Nat) (cs : List Nat), (updateCounters last deb hold rep k cs).length = cs.length := by
  intro k cs
  induction cs generalizing k with
  | nil => rfl
  | cons c cs ih => simp [updateCounters, ih]

theorem updateCounters_getD (last deb hold rep : Nat) :
    ∀ (cs : List Nat) (k i : Nat), i < cs.length →
      (updateCounters last deb hold rep k cs).getD i 0 =
        if (last.testBit (k + i) && deb.testBit (k + i)) = true then
          if cs.getD i 0 < hold + rep then cs.getD i 0 + 1 else cs.getD i 0
        else 0 := by
  intro cs
  induction cs with
  | nil => intro k i h; simp at h
  | cons c cs ih =>
    intro k i h
    cases i with
    | zero =>
      simp only [updateCounters, List.getD_cons_zero, Nat.add_zero]
      rw [if_congr (land_one_shiftLeft_ne_zero (last &&& deb) k) rfl rfl]
      rw [if_congr (by rw [Nat.testBit_land]) rfl rfl]
    | succ i =>
      simp only [updateCounters, List.getD_cons_succ]
      rw [ih (k + 1) i (by simpa using h)]
      have : k + 1 + i = k + (i + 1) := by omega
      rw [this]

theorem updateCounters_le (last deb hold rep : Nat) :
    ∀ (k : Nat) (cs : List Nat), (∀ c ∈ cs, c ≤ hold + rep) →
      ∀ c ∈ updateCounters last deb hold rep k cs, c ≤ hold + rep := by
  intro k cs
  induction cs generalizing k with
  | nil => intro _ c hc; simp [updateCounters] at hc
  | cons x xs ih =>
    intro hb c hc
    simp only [updateCounters, List.mem_cons] at hc
    rcases hc with hc | hc
    · subst hc
      have hx : x ≤ hold + rep := hb x (List.mem_cons_self x xs)
      split
      · split <;> omega
      · omega
    · exact ih (k + 1) (fun c hc => hb c (List.mem_cons_of_mem _ hc)) c hc

/-- `update` never touches the timing parameters or the counter-array length. -/
theorem portUpdate_frame_fields (s : PortDebouncer) (v : Nat) :
    (portUpdate s v).2.repeat_ticks = s.repeat_ticks ∧
    (portUpdate s v).2.hold_ticks = s.hold_ticks ∧
    (portUpdate s v).2.counter.length = s.counter.length := by
  rw [portUpdate]
  split <;> simp [updateCounters_length]

/-- `get_state` never touches the timing parameters, the counter-array length,
the ring, the index, or the debounced bitmasks. -/
theorem portGetState_frame_fields (s : PortDebouncer) (pin : Nat) :
    (portGetState s pin).2.repeat_ticks = s.repeat_ticks ∧
    (portGetState s pin).2.hold_ticks = s.hold_ticks ∧
    (portGetState s pin).2.counter.length = s.counter.length ∧
    (portGetState s pin).2.changed_to_pressed = s.changed_to_pressed ∧
    (portGetState s pin).2.debounced_state = s.debounced_state := by
  rw [portGetState]
  split
  · simp
  · split
    · simp
    · split <;> [skip; split] <;> [simp; skip; skip] <;> [skip; split] <;> simp

/-- `get_state` either leaves the counter array unchanged or (in the `Repeat`
branch) rewrites the queried slot to `counter[pin] - repeat_ticks`. -/
theorem portGetState_counter_cases (s : PortDebouncer) (pin : Nat) :
    (portGetState s pin).2.counter = s.counter ∨
    (portGetState s pin).2.counter =
      s.counter.set pin (s.counter.getD pin 0 - s.repeat_ticks) := by
  rw [portGetState]
  split
  · exact Or.inl rfl
  · split
    · exact Or.inl rfl
    · split
      · exact Or.inr rfl
      · split
        · exact Or.inl rfl
        · split
          · exact Or.inl rfl
          · exact Or.inl rfl

theorem portReachable_fields {init s : PortDebouncer} (h : PortReachable init s) :
    s.repeat_ticks = init.repeat_ticks ∧ s.hold_ticks = init.hold_ticks := by
  induction h with
  | refl => exact ⟨rfl, rfl⟩
  | update t v _ ih =>
    have hf := portUpdate_frame_fields t v
    exact ⟨hf.1.trans ih.1, hf.2.1.trans ih.2⟩
  | getState t pin _ ih =>
    have hf := portGetState_frame_fields t pin
    exact ⟨hf.1.trans ih.1, hf.2.1.trans ih.2⟩

/-- The saturation invariant: in every reachable `PortDebouncer` state every
per-pin counter stays at or below `hold_ticks + repeat_ticks`. -/
theorem portReachable_counter_le {init s : PortDebouncer}
    (hinit : ∀ c ∈ init.counter, c ≤ init.hold_ticks + init.repeat_ticks)
    (h : PortReachable init s) :
    ∀ c ∈ s.counter, c ≤ s.hold_ticks + s.repeat_ticks := by
  induction h with
  | refl => exact hinit
  | update t v ht ih =>
    have hf := portUpdate_frame_fields t v
    rw [hf.1, hf.2.1]
    rw [portUpdate]
    split
    · exact ih
    · exact updateCounters_le _ _ _ _ _ _ ih
  | getState t pin ht ih =>
    have hf := portGetState_frame_fields t pin
    rw [hf.1, hf.2.1]
    rcases portGetState_counter_cases t pin with hc | hc
    · rw [hc]; exact ih
    · rw [hc]
      intro c hmem
      rcases List.mem_or_eq_of_mem_set hmem with hm | hm
      · exact ih c hm
      · subst hm
        refine le_trans (Nat.sub_le _ _) ?_
        by_cases hp : pin < t.counter.length
        · rw [List.getD_eq_getElem _ _ hp]
          exact ih _ (List.getElem_mem hp)
        · rw [List.getD_eq_default _ _ (by omega)]
          exact Nat.zero_le _

theorem portReachable_runUpdates {init s : PortDebouncer} (h : PortReachable init s)
    (l : List Nat) : PortReachable init (portRunUpdates s l) := by
  induction l generalizing s with
  | nil => exact h
  | cons v vs ih => exact ih (PortReachable.update s v h)

theorem pinUpdate_frame_fields (s : PinDebouncer) (v : Bool) :
    (pinUpdate s v).2.press_ticks = s.press_ticks ∧
    (pinUpdate s v).2.repeat_ticks = s.repeat_ticks ∧
    (pinUpdate s v).2.hold_ticks = s.hold_ticks := by
  rw [pinUpdate]
  split <;> simp

theorem pinGetState_frame_fields (s : PinDebouncer) :
    (pinGetState s).2.press_ticks = s.press_ticks ∧
    (pinGetState s).2.repeat_ticks = s.repeat_ticks ∧
    (pinGetState s).2.hold_ticks = s.hold_ticks := by
  rw [pinGetState]
  split <;> simp

theorem pinReachable_fields {init s : PinDebouncer} (h : PinReachable init s) :
    s.press_ticks = init.press_ticks ∧ s.repeat_ticks = init.repeat_ticks ∧
    s.hold_ticks = init.hold_ticks := by
  induction h with
  | refl => exact ⟨rfl, rfl, rfl⟩
  | update t v _ ih =>
    have hf := pinUpdate_frame_fields t v
    exact ⟨hf.1.trans ih.1, hf.2.1.trans ih.2.1, hf.2.2.trans ih.2.2⟩
  | getState t _ ih =>
    have hf := pinGetState_frame_fields t
    exact ⟨hf.1.trans ih.1, hf.2.1.trans ih.2.1, hf.2.2.trans ih.2.2⟩

theorem pinReachable_runUpdates {init s : PinDebouncer} (h : PinReachable init s)
    (l : List Bool) : PinReachable init (pinRunUpdates s l) := by
  induction l generalizing s with
  | nil => exact h
  | cons v vs ih => exact ih (PinReachable.update s v h)

/-! ## Claims -/

/-- C1. Every `PortDebouncer::update(port_value)` call stores the raw sample
at the current ring slot; while the index has not reached `N - 1` it only
advances the index and returns `false`; on the Nth call it resets the index
to `0`, recomputes `debounced_state` as the bitwise AND of all `N` stored
samples, sets `changed_to_pressed = !last_debounced_state & debounced_state`,
increments each configured pin's counter by one (saturating at
`hold_ticks + repeat_ticks`) exactly when the pin's bit is set in both the
previous and the new debounced state and resets it to `0` otherwise, copies
`debounced_state` into `last_debounced_state`, and returns `true`. -/
theorem portUpdate_spec (s : PortDebouncer) (v : Nat)
    (hidx : s.current_index < s.port_states.length)
    (hsat : ∀ c ∈ s.counter, c ≤ s.hold_ticks + s.repeat_ticks) :
    (portUpdate s v).2.port_states = s.port_states.set s.current_index v ∧
    (s.current_index ≠ s.port_states.length - 1 →
      portUpdate s v = (false, { s with
        port_states := s.port_states.set s.current_index v
        current_index := s.current_index + 1 })) ∧
    (s.current_index = s.port_states.length - 1 →
      (portUpdate s v).1 = true ∧
      (portUpdate s v).2.current_index = 0 ∧
      (∀ b : Nat, (portUpdate s v).2.debounced_state.testBit b = true ↔
        (b < 32 ∧ ∀ x ∈ s.port_states.set s.current_index v, x.testBit b = true)) ∧
      (∀ b : Nat, (portUpdate s v).2.changed_to_pressed.testBit b = true ↔
        (s.last_debounced_state.testBit b = false ∧
          (portUpdate s v).2.debounced_state.testBit b = true)) ∧
      (portUpdate s v).2.counter.length = s.counter.length ∧
      (∀ i : Nat, i < s.counter.length →
        (portUpdate s v).2.counter.getD i 0 =
          if s.last_debounced_state.testBit i = true ∧
              (portUpdate s v).2.debounced_state.testBit i = true then
            min (s.counter.getD i 0 + 1) (s.hold_ticks + s.repeat_ticks)
          else 0) ∧
      (portUpdate s v).2.last_debounced_state = (portUpdate s v).2.debounced_state) := by
  refine ⟨?_, ?_, ?_⟩
  · rw [portUpdate]; split <;> rfl
  · intro h
    rw [portUpdate, if_pos h]
  · intro h
    have hcond : ¬ s.current_index ≠ s.port_states.length - 1 := not_not.mpr h
    have hdeb : (portUpdate s v).2.debounced_state =
        portDebounce (s.port_states.set s.current_index v) := by
      rw [portUpdate, if_neg hcond]
    have hdebBit : ∀ b : Nat, (portUpdate s v).2.debounced_state.testBit b = true ↔
        (b < 32 ∧ ∀ x ∈ s.port_states.set s.current_index v, x.testBit b = true) := by
      intro b
      rw [hdeb, portDebounce_testBit]
      simp [List.all_eq_true]
    refine ⟨?_, ?_, hdebBit, ?_, ?_, ?_, ?_⟩
    · rw [portUpdate, if_neg hcond]
    · rw [portUpdate, if_neg hcond]
    · intro b
      have hch : (portUpdate s v).2.changed_to_pressed =
          (s.last_debounced_state ^^^ 0xFFFFFFFF) &&&
            portDebounce (s.port_states.set s.current_index v) := by
        rw [portUpdate, if_neg hcond]
      rw [hch, ← hdeb]
      by_cases hb : b < 32
      · have hmask : (0xFFFFFFFF : Nat).testBit b = true := by
          have : (0xFFFFFFFF : Nat) = 2 ^ 32 - 1 := by norm_num
          rw [this, Nat.testBit_two_pow_sub_one]
          simpa using hb
        rw [Nat.testBit_land, Nat.testBit_xor, hmask]
        rcases hl : s.last_debounced_state.testBit b <;>
          rcases hd : (portUpdate s v).2.debounced_state.testBit b <;> simp [hl, hd]
      · have hd : (portUpdate s v).2.debounced_state.testBit b = false := by
          rcases hd : (portUpdate s v).2.debounced_state.testBit b
          · rfl
          · exact absurd ((hdebBit b).mp hd).1 hb
        rw [Nat.testBit_land, hd]
        simp
    · rw [portUpdate, if_neg hcond]
      exact updateCounters_length _ _ _ _ _ _
    · intro i hi
      have hcnt : (portUpdate s v).2.counter =
          updateCounters s.last_debounced_state
            (portDebounce (s.port_states.set s.current_index v))
            s.hold_ticks s.repeat_ticks 0 s.counter := by
        rw [portUpdate, if_neg hcond]
      rw [hcnt, updateCounters_getD _ _ _ _ _ _ _ hi, Nat.zero_add]
      have hc : s.counter.getD i 0 ≤ s.hold_ticks + s.repeat_ticks := by
        rw [List.getD_eq_getElem _ _ hi]
        exact hsat _ (List.getElem_mem hi)
      rw [← hdeb]
      by_cases hli : s.last_debounced_state.testBit i = true ∧
          (portUpdate s v).2.debounced_state.testBit i = true
      · rw [if_pos (by rw [hli.1, hli.2]; rfl), if_pos hli]
        split <;> omega
      · rw [if_neg (fun hcon => hli (by simpa [Bool.and_eq_true] using hcon)), if_neg hli]
    · rw [portUpdate, if_neg hcond]

/-- Witness for C1: a concrete completing call returns `true`, resets the
index, and copies the debounced state into `last_debounced_state`. -/
theorem portUpdate_spec_witness :
    (portUpdate (portRunUpdates (portNew 4 1 20 100) [1, 1, 1]) 1).1 = true ∧
    (portUpdate (portRunUpdates (portNew 4 1 20 100) [1, 1, 1]) 1).2.current_index = 0 ∧
    (portUpdate (portRunUpdates (portNew 4 1 20 100) [1, 1, 1]) 1).2.last_debounced_state =
      (portUpdate (portRunUpdates (portNew 4 1 20 100) [1, 1, 1]) 1).2.debounced_state := by
  have h := portUpdate_spec (portRunUpdates (portNew 4 1 20 100) [1, 1, 1]) 1
    (by decide) (by decide)
  have hc := h.2.2 (by decide)
  exact ⟨hc.1, hc.2.1, hc.2.2.2.2.2.2⟩

/-- C2. For every state and every configured pin (`pin < BTNS`),
`get_state(pin)` returns `Ok` of exactly one `BtnState`, chosen in strict
priority order: `ChangedToPressed` if the pin's bit is set in the edge flag;
else `Repeat` (decrementing the counter by `repeat_ticks` as a side effect)
if `counter[pin] ≥ hold_ticks + repeat_ticks`; else `Hold` if
`counter[pin] ≥ hold_ticks`; else `Pressed` if the pin's bit is set in
`debounced_state`; else `UnPressed`. -/
theorem portGetState_spec (s : PortDebouncer) (pin : Nat)
    (hpin : pin < s.counter.length) :
    portGetState s pin =
      if s.changed_to_pressed.testBit pin = true then
        (.ok .ChangedToPressed, s)
      else if s.counter.getD pin 0 ≥ s.hold_ticks + s.repeat_ticks then
        (.ok .Repeat, { s with
          counter := s.counter.set pin (s.counter.getD pin 0 - s.repeat_ticks) })
      else if s.counter.getD pin 0 ≥ s.hold_ticks then
        (.ok .Hold, s)
      else if s.debounced_state.testBit pin = true then
        (.ok .Pressed, s)
      else
        (.ok .UnPressed, s) := by
  rw [portGetState, if_neg (by omega)]
  rw [if_congr (land_one_shiftLeft_ne_zero s.changed_to_pressed pin) rfl rfl]
  rw [if_congr Iff.rfl rfl
    (if_congr Iff.rfl rfl (if_congr (land_one_shiftLeft_ne_zero s.debounced_state pin) rfl rfl))]

/-- Witness for C2: on a concrete state where the counter sits between the
hold and repeat thresholds, `get_state` returns `Ok Hold`. -/
theorem portGetState_spec_witness :
    portGetState (PortDebouncer.mk [1, 1] 0 1 1 0 5 24 [25]) 0 =
      (.ok .Hold, PortDebouncer.mk [1, 1] 0 1 1 0 5 24 [25]) := by
  have h := portGetState_spec (PortDebouncer.mk [1, 1] 0 1 1 0 5 24 [25]) 0 (by decide)
  exact h.trans rfl

/-- C3. `get_state(pin)` returns `Err(BtnUninitialized)` exactly when
`pin ≥ BTNS` (the configured button count, i.e. the length of the counter
array); for every `pin < BTNS` it returns `Ok` (and, the embedding being
total on that domain, never panics). -/
theorem portGetState_err_iff (s : PortDebouncer) (pin : Nat) :
    ((portGetState s pin).1 = .error .BtnUninitialized ↔ s.counter.length ≤ pin) ∧
    (pin < s.counter.length → ((portGetState s pin).1.isOk = true)) := by
  constructor
  · rw [portGetState]
    constructor
    · intro h
      by_contra hlt
      rw [if_neg (by omega)] at h
      split at h
      · simp at h
      · split at h
        · simp at h
        · split at h
          · simp at h
          · split at h <;> simp at h
    · intro h
      rw [if_pos (by omega)]
  · intro h
    rw [portGetState, if_neg (by omega)]
    split
    · rfl
    · split
      · rfl
      · split
        · rfl
        · split <;> rfl

/-- Witness for C3: a concrete in-range query returns `Ok`, and a concrete
out-of-range query returns the uninitialized error. -/
theorem portGetState_err_iff_witness :
    ((portGetState (portNew 4 1 20 100) 3).1 = .error .BtnUninitialized ↔ 1 ≤ 3) ∧
    (portGetState (portNew 4 1 20 100) 0).1.isOk = true := by
  exact ⟨(portGetState_err_iff (portNew 4 1 20 100) 3).1,
    (portGetState_err_iff (portNew 4 1 20 100) 0).2 (by decide)⟩

/-- C4 (refuting evaluation). The saturation invariant is broken by the code:
from `PinDebouncer::new(4, 20, 100)`, feeding 120 `true` samples drives the
stored state to `Repeat` with the counter saturated at
`hold_ticks + repeat_ticks = 119`; one further `false` sample (not completing
a window) resets the counter to `0` but leaves the stale `Repeat` state, and
the next `get_state` call executes `self.counter -= self.repeat_ticks` on the
zero counter — the `u32` wraps to `4294967276`, far above the claimed ceiling
(with overflow checks enabled this subtraction panics instead). -/
theorem pin_counter_bound_violation :
    (pinRunUpdates (pinNew 4 20 100) (List.replicate 120 true ++ [false])).hold_ticks +
      (pinRunUpdates (pinNew 4 20 100) (List.replicate 120 true ++ [false])).repeat_ticks = 119 ∧
    (pinRunUpdates (pinNew 4 20 100) (List.replicate 120 true ++ [false])).counter = 0 ∧
    (pinGetState (pinRunUpdates (pinNew 4 20 100)
      (List.replicate 120 true ++ [false]))).2.counter = 4294967276 := by
  refine ⟨by decide, by decide, by decide⟩

/-- C9 (refuting evaluation). In the same reachable state as for C4 the
stored state is a stale `Repeat` while the counter (`0`) is below
`repeat_ticks` (`20`), so the subtraction `self.counter -= self.repeat_ticks`
inside `PinDebouncer::get_state` underflows the `u32`: `get_state` does have
a failure mode besides the out-of-range pin (a panic in builds with overflow
checks, a silent wrap otherwise). -/
theorem pin_get_state_underflow :
    pinRepeatUnderflow (pinRunUpdates (pinNew 4 20 100) (List.replicate 120 true ++ [false])) := by
  decide

/-- C5 (counterexample). `PinDebouncer::new(4, 20, 100)` stores
`press_ticks = 3`; after the samples `[false, true, true]` the fourth call
(`true`) completes the window with consecutive-true counter `3`, which is
BELOW the constructor argument `4` — yet the recomputed base state is
`Pressed` (and the stored state becomes `ChangedToPressed`), because the code
compares the counter against the stored `press_ticks - 1`, not the
constructor argument as the claim states. -/
theorem pin_press_threshold_counterexample :
    (pinRunUpdates (pinNew 4 20 100) [false, true, true]).current_index =
      (pinRunUpdates (pinNew 4 20 100) [false, true, true]).press_ticks ∧
    pinNextCounter (pinRunUpdates (pinNew 4 20 100) [false, true, true]) true = 3 ∧
    ¬ (4 ≤ 3) ∧
    pinBaseState (pinNextCounter (pinRunUpdates (pinNew 4 20 100) [false, true, true]) true)
      (pinRunUpdates (pinNew 4 20 100) [false, true, true]).press_ticks = .Pressed ∧
    (pinUpdate (pinRunUpdates (pinNew 4 20 100) [false, true, true]) true).2.debounced_state =
      .ChangedToPressed := by
  refine ⟨by decide, by decide, by decide, by decide, by decide⟩

/-- C5 (amended). For every `PinDebouncer` constructed with
`new(press_ticks, repeat_ticks, hold_ticks)` (with `press_ticks ≥ 1`), on
each window-completing update the recomputed base debounced state is
`Pressed` iff the consecutive-true counter is at least `press_ticks - 1`
(the stored, decremented field), else `UnPressed`. -/
theorem pinBaseState_amended (p r h : Nat) (hp : 1 ≤ p) (s : PinDebouncer)
    (hs : PinReachable (pinNew p r h) s) (hw : s.current_index = s.press_ticks) (v : Bool) :
    (pinBaseState (pinNextCounter s v) s.press_ticks = .Pressed ↔
      p - 1 ≤ pinNextCounter s v) := by
  have hfields := pinReachable_fields hs
  have hpress : s.press_ticks = p - 1 := hfields.1
  rw [hpress, pinBaseState]
  split
  · rename_i hge
    exact iff_of_true rfl hge
  · rename_i hlt
    exact iff_of_false (by decide) hlt

/-- Witness for the amended C5: in the concrete counterexample state the base
state is `Pressed` precisely because the counter (3) reaches the stored
threshold `4 - 1`. -/
theorem pinBaseState_amended_witness :
    (pinBaseState (pinNextCounter (pinRunUpdates (pinNew 4 20 100) [false, true, true]) true)
        (pinRunUpdates (pinNew 4 20 100) [false, true, true]).press_ticks = .Pressed ↔
      4 - 1 ≤ pinNextCounter (pinRunUpdates (pinNew 4 20 100) [false, true, true]) true) := by
  exact pinBaseState_amended 4 20 100 (by decide)
    (pinRunUpdates (pinNew 4 20 100) [false, true, true])
    (pinReachable_runUpdates PinReachable.refl [false, true, true]) (by decide) true

/-- C6 (counterexample). `PortDebouncer::<U4, U1>::new(2, 100)` floors the
stored `repeat_ticks` to `2 / 4 = 0`; after 100 all-ones samples the counter
saturates at `hold_ticks + repeat_ticks = 24`, `get_state` returns `Repeat`
and decrements the counter by `0`, and the immediately following `get_state`
returns `Repeat` again — not `Hold` as the claim states. -/
theorem port_repeat_twice_counterexample :
    (portGetState (portRunUpdates (portNew 4 1 2 100) (List.replicate 100 1)) 0).1 =
      .ok .Repeat ∧
    (portGetState
        (portGetState (portRunUpdates (portNew 4 1 2 100) (List.replicate 100 1)) 0).2 0).1 =
      .ok .Repeat := by
  refine ⟨by decide, by decide⟩

/-- C6 (amended). After a `get_state` call that returns `Repeat`, an
immediately following `get_state` with no intervening `update` returns
`Hold`, not `Repeat`: unconditionally for the Pin variant, and for the Port
variant (same pin) in every reachable state whose stored (normalized)
`repeat_ticks` is nonzero. -/
theorem repeat_then_hold_amended :
    (∀ (N BTNS r h pin : Nat) (s : PortDebouncer),
        PortReachable (portNew N BTNS r h) s → 0 < s.repeat_ticks →
        (portGetState s pin).1 = .ok .Repeat →
        (portGetState (portGetState s pin).2 pin).1 = .ok .Hold) ∧
    (∀ t : PinDebouncer, (pinGetState t).1 = .Repeat →
        (pinGetState (pinGetState t).2).1 = .Hold) := by
  constructor
  · intro N BTNS r h pin s hs hr hrep
    have hinit : ∀ c ∈ (portNew N BTNS r h).counter,
        c ≤ (portNew N BTNS r h).hold_ticks + (portNew N BTNS r h).repeat_ticks := by
      intro c hc
      have hc0 : c = 0 := List.eq_of_mem_replicate (by simpa [portNew] using hc)
      simp [hc0]
    have hinv := portReachable_counter_le hinit hs
    rw [portGetState] at hrep
    by_cases h1 : pin ≥ s.counter.length
    · rw [if_pos h1] at hrep
      exact absurd hrep (by simp)
    rw [if_neg h1] at hrep
    by_cases h2 : s.changed_to_pressed &&& 1 <<< pin ≠ 0
    · rw [if_pos h2] at hrep
      exact absurd hrep (by simp)
    rw [if_neg h2] at hrep
    by_cases h3 : s.counter.getD pin 0 ≥ s.hold_ticks + s.repeat_ticks
    · have hsecond : (portGetState s pin).2 = { s with
          counter := s.counter.set pin (s.counter.getD pin 0 - s.repeat_ticks) } := by
        rw [portGetState, if_neg h1, if_neg h2, if_pos h3]
      have hc_le : s.counter.getD pin 0 ≤ s.hold_ticks + s.repeat_ticks := by
        rw [List.getD_eq_getElem _ _ (by omega)]
        exact hinv _ (List.getElem_mem (by omega))
      have hceq : s.counter.getD pin 0 = s.hold_ticks + s.repeat_ticks := le_antisymm hc_le h3
      rw [hsecond]
      have hget : (s.counter.set pin (s.counter.getD pin 0 - s.repeat_ticks)).getD pin 0 =
          s.hold_ticks := by
        rw [List.getD_eq_getElem _ _ (by rw [List.length_set]; omega)]
        rw [List.getElem_set, if_pos rfl]
        omega
      rw [portGetState]
      rw [if_neg (by simpa [List.length_set] using h1)]
      rw [if_neg h2]
      rw [if_neg (show ¬ (s.counter.set pin (s.counter.getD pin 0 - s.repeat_ticks)).getD pin 0 ≥
          s.hold_ticks + s.repeat_ticks by rw [hget]; omega)]
      rw [if_pos (show (s.counter.set pin (s.counter.getD pin 0 - s.repeat_ticks)).getD pin 0 ≥
          s.hold_ticks by rw [hget])]
    · rw [if_neg h3] at hrep
      split at hrep
      · exact absurd hrep (by simp)
      · split at hrep <;> exact absurd hrep (by simp)
  · intro t ht
    cases hdeb : t.debounced_state <;> simp [pinGetState, hdeb] at ht ⊢

/-- Witness for the amended C6: a concrete Port run (`repeat_ticks = 20`,
window 4, so the stored repeat count is 5) and a concrete Pin run in which a
`Repeat` observation is followed by a `Hold` observation. -/
theorem repeat_then_hold_amended_witness :
    (portGetState
        (portGetState (portRunUpdates (portNew 4 1 20 100) (List.replicate 120 1)) 0).2 0).1 =
      .ok .Hold ∧
    (pinGetState
        (pinGetState (pinRunUpdates (pinNew 4 20 100) (List.replicate 120 true))).2).1 =
      .Hold := by
  constructor
  · exact repeat_then_hold_amended.1 4 1 20 100 0
      (portRunUpdates (portNew 4 1 20 100) (List.replicate 120 1))
      (portReachable_runUpdates PortReachable.refl (List.replicate 120 1))
      (by decide) (by decide)
  · exact repeat_then_hold_amended.2
      (pinRunUpdates (pinNew 4 20 100) (List.replicate 120 true)) (by decide)

/-- C7 (counterexample). `PortDebouncer::<U4, U1>::new(0, 4)` stores
`repeat_ticks = 0` and `hold_ticks = 4 / 4 - 1 = 0`; after one entire window
of all-`false` samples the pin's counter is `0`, which already satisfies
`counter >= hold_ticks + repeat_ticks`, so `get_state` reports `Repeat` —
not `UnPressed` as the claim states. -/
theorem port_false_window_counterexample :
    (portGetState (portRunUpdates (portNew 4 1 0 4) [0, 0, 0, 0]) 0).1 = .ok .Repeat ∧
    (portGetState (portRunUpdates (portNew 4 1 0 4) [0, 0, 0, 0]) 0).1 ≠ .ok .UnPressed := by
  refine ⟨by decide, by decide⟩

/-- C7 (amended). For every `PortDebouncer` whose stored (normalized)
`hold_ticks` is at least 1, a configured pin whose raw samples have the
pin's bit clear for one entire completed window is reported as `UnPressed`
by `get_state` right after that window (hence never `Pressed`, `Hold` or
`Repeat`). -/
theorem port_unpressed_after_false_window (s : PortDebouncer) (v pin : Nat)
    (hidx : s.current_index = s.port_states.length - 1)
    (hlen : s.current_index < s.port_states.length)
    (hpin : pin < s.counter.length)
    (hhold : 1 ≤ s.hold_ticks)
    (hfalse : ∀ x ∈ s.port_states.set s.current_index v, x.testBit pin = false) :
    (portGetState (portUpdate s v).2 pin).1 = .ok .UnPressed := by
  have hcond : ¬ s.current_index ≠ s.port_states.length - 1 := not_not.mpr hidx
  have hdeb : (portUpdate s v).2.debounced_state =
      portDebounce (s.port_states.set s.current_index v) := by
    rw [portUpdate, if_neg hcond]
  have hne : s.port_states.set s.current_index v ≠ [] := by
    have : (s.port_states.set s.current_index v).length = s.port_states.length :=
      List.length_set _ _ _
    intro hcon
    rw [hcon] at this
    simp at this
    omega
  have hdbit : (portUpdate s v).2.debounced_state.testBit pin = false := by
    rw [hdeb, portDebounce_testBit]
    obtain ⟨y, hy⟩ := List.exists_mem_of_ne_nil _ hne
    have hall : ((s.port_states.set s.current_index v).all fun x => x.testBit pin) = false := by
      rw [List.all_eq_false]
      exact ⟨y, hy, by rw [hfalse y hy]; decide⟩
    rw [hall, Bool.and_false]
  have hchanged : (portUpdate s v).2.changed_to_pressed.testBit pin = false := by
    have hch : (portUpdate s v).2.changed_to_pressed =
        (s.last_debounced_state ^^^ 0xFFFFFFFF) &&&
          portDebounce (s.port_states.set s.current_index v) := by
      rw [portUpdate, if_neg hcond]
    rw [hch, Nat.testBit_land, ← hdeb, hdbit, Bool.and_false]
  have hcnt : (portUpdate s v).2.counter.getD pin 0 = 0 := by
    have hcnteq : (portUpdate s v).2.counter =
        updateCounters s.last_debounced_state
          (portDebounce (s.port_states.set s.current_index v))
          s.hold_ticks s.repeat_ticks 0 s.counter := by
      rw [portUpdate, if_neg hcond]
    rw [hcnteq, updateCounters_getD _ _ _ _ _ _ _ hpin, Nat.zero_add]
    rw [← hdeb, hdbit, Bool.and_false]
    simp
  have hfields := portUpdate_frame_fields s v
  rw [portGetState]
  rw [if_neg (by rw [hfields.2.2]; omega)]
  rw [if_neg (by rw [land_one_shiftLeft_ne_zero, hchanged]; simp)]
  rw [if_neg (by show ¬ _ ≥ _; rw [hcnt, hfields.1, hfields.2.1]; omega)]
  rw [if_neg (by show ¬ _ ≥ _; rw [hcnt, hfields.2.1]; omega)]
  rw [if_neg (by rw [land_one_shiftLeft_ne_zero, hdbit]; simp)]

/-- Witness for the amended C7: with `new(20, 100)` (stored hold count 24)
and a fully-zero window, the pin reads `UnPressed`. -/
theorem port_unpressed_after_false_window_witness :
    (portGetState
        (portUpdate (portRunUpdates (portNew 4 1 20 100) [0, 0, 0]) 0).2 0).1 =
      .ok .UnPressed := by
  exact port_unpressed_after_false_window
    (portRunUpdates (portNew 4 1 20 100) [0, 0, 0]) 0 0
    (by decide) (by decide) (by decide) (by decide) (by decide)

/-- C8. A non-completing `update` call mutates only the ring slot and the
ring index (Port variant), respectively only the scalar counter and the
index (Pin variant): `debounced_state`, `last_debounced_state`, the
`changed_to_pressed` edge flag and the per-pin counters are all left
unchanged, and the call returns `false`.  Those fields change only on the
window-completing (every Nth / every `press_ticks`-th) `update` call. -/
theorem update_noncompleting_frame (s : PortDebouncer) (v : Nat) (t : PinDebouncer) (b : Bool)
    (hP : s.current_index ≠ s.port_states.length - 1)
    (hT : t.current_index ≠ t.press_ticks) :
    ((portUpdate s v).1 = false ∧
      (portUpdate s v).2 = { s with
        port_states := s.port_states.set s.current_index v
        current_index := s.current_index + 1 }) ∧
    ((pinUpdate t b).1 = false ∧
      (pinUpdate t b).2 = { t with
        counter := pinNextCounter t b
        current_index := t.current_index + 1 }) := by
  rw [portUpdate, if_pos hP, pinUpdate, if_pos hT]
  exact ⟨⟨rfl, rfl⟩, ⟨rfl, rfl⟩⟩

/-- Witness for C8: fresh debouncers (index 0, window length 4) perform a
non-completing update. -/
theorem update_noncompleting_frame_witness :
    (portUpdate (portNew 4 1 20 100) 7).1 = false ∧
    (pinUpdate (pinNew 4 20 100) true).1 = false := by
  have h := update_noncompleting_frame (portNew 4 1 20 100) 7 (pinNew 4 20 100) true
    (by decide) (by decide)
  exact ⟨h.1.1, h.2.1⟩

/-- C10. `get_state` mutates the state only when it returns `Repeat` — the
Port variant then decrements `counter[pin]` by `repeat_ticks`, the Pin
variant decrements its scalar counter by `repeat_ticks` (the wrapping `u32`
subtraction) and rewrites the stored state to `Hold`; in every other case,
including the `Err(BtnUninitialized)` case, the entire state is unchanged. -/
theorem getState_frame (s : PortDebouncer) (pin : Nat) (t : PinDebouncer) :
    ((portGetState s pin).1 ≠ .ok .Repeat → (portGetState s pin).2 = s) ∧
    ((portGetState s pin).1 = .ok .Repeat →
      (portGetState s pin).2 = { s with
        counter := s.counter.set pin (s.counter.getD pin 0 - s.repeat_ticks) }) ∧
    ((pinGetState t).1 ≠ .Repeat → (pinGetState t).2 = t) ∧
    ((pinGetState t).1 = .Repeat →
      (pinGetState t).2 = { t with
        counter := u32Sub t.counter t.repeat_ticks
        debounced_state := .Hold }) := by
  refine ⟨?_, ?_, ?_, ?_⟩
  · rw [portGetState]
    split
    · intro _; rfl
    split
    · intro _; rfl
    split
    · intro hne; exact absurd rfl hne
    split
    · intro _; rfl
    split
    · intro _; rfl
    · intro _; rfl
  · rw [portGetState]
    split
    · intro hcon; exact absurd hcon (by simp)
    split
    · intro hcon; exact absurd hcon (by simp)
    split
    · intro _; rfl
    split
    · intro hcon; exact absurd hcon (by simp)
    split
    · intro hcon; exact absurd hcon (by simp)
    · intro hcon; exact absurd hcon (by simp)
  · intro hne
    cases hdeb : t.debounced_state <;> simp [pinGetState, hdeb] at hne ⊢
  · intro hrep
    cases hdeb : t.debounced_state <;> simp [pinGetState, hdeb] at hrep ⊢

/-- Witness for C10: the four cases at concrete states — an idle Port state
and an idle Pin state are untouched, a repeating Port state has (only) the
queried counter slot decremented, a repeating Pin state has its counter
decremented and its stored state rewritten to `Hold`. -/
theorem getState_frame_witness :
    (portGetState (portNew 4 1 20 100) 0).2 = portNew 4 1 20 100 ∧
    (portGetState (PortDebouncer.mk [1, 1] 0 1 1 0 5 24 [29]) 0).2 =
      PortDebouncer.mk [1, 1] 0 1 1 0 5 24 [24] ∧
    (pinGetState (pinNew 4 20 100)).2 = pinNew 4 20 100 ∧
    (pinGetState (PinDebouncer.mk 0 .Repeat .Repeat 3 20 99 119)).2 =
      PinDebouncer.mk 0 .Repeat .Hold 3 20 99 99 := by
  refine ⟨(getState_frame (portNew 4 1 20 100) 0 (pinNew 4 20 100)).1 (by decide),
    (getState_frame (PortDebouncer.mk [1, 1] 0 1 1 0 5 24 [29]) 0 (pinNew 4 20 100)).2.1
      (by decide),
    (getState_frame (portNew 4 1 20 100) 0 (pinNew 4 20 100)).2.2.1 (by decide),
    (getState_frame (portNew 4 1 20 100) 0
      (PinDebouncer.mk 0 .Repeat .Repeat 3 20 99 119)).2.2.2 (by decide)⟩

end Debouncer
